import Mathlib

/-!
A shallow embedding of `src/blockchain_dag.py` (the DAG-blockchain prototype):
the `Node` record, the `DAG` ledger store with its admission/validation rules,
the ownership projection, the staking balance, persistence round-trips and the
integrity check, together with theorems about the spec's claims.

Python floats (timestamps) are modelled as `Int`: the code uses timestamps only
through ordering comparisons and string formatting, never float arithmetic.
Python dicts are modelled as insertion-ordered association lists; Python sets
as `Finset`.
-/

namespace Blockchain

/-- A JSON-style value stored in a node's `data` payload.  The prototype's
payloads hold only strings (`recipient_id`, asset metadata) and integers
(`staking_amount`). -/
inductive PValue where
  | str (s : String)
  | int (n : Int)
deriving DecidableEq

/-- A node's `data` payload: a Python dict, modelled as an association list in
insertion order with unique keys.  Lookup takes the first binding. -/
abbrev Payload := List (String × PValue)

/-- Dict access `d[k]` / `k in d` / `d.get(k)` on a payload dict: first binding for `k`. -/
def Payload.lookup (p : Payload) (k : String) : Option PValue :=
  match p with
  | [] => none
  | (k', v) :: rest => if k' = k then some v else Payload.lookup rest k

/-- Code-point comparison of character lists, the order Python uses to compare
strings (`json.dumps(..., sort_keys=True)` sorts keys this way). -/
def charsLe : List Char → List Char → Bool
  | [], _ => true
  | _ :: _, [] => false
  | a :: as, b :: bs =>
    if a.toNat < b.toNat then true
    else if b.toNat < a.toNat then false
    else charsLe as bs

/-- Python's `<=` on strings (lexicographic by code point). -/
def strLe (a b : String) : Bool := charsLe a.data b.data

/-- Insert a key/value pair into a key-sorted association list. -/
def insertKeySorted (kv : String × PValue) : Payload → Payload
  | [] => [kv]
  | kv' :: rest =>
    if strLe kv.1 kv'.1 then kv :: kv' :: rest else kv' :: insertKeySorted kv rest

/-- Sort a payload's bindings by key, as `sort_keys=True` does. -/
def sortKeys : Payload → Payload
  | [] => []
  | kv :: rest => insertKeySorted kv (sortKeys rest)

/-- Render one JSON value (`json.dumps` of a string or an int). -/
def PValue.render : PValue → String
  | .str s => "\"" ++ s ++ "\""
  | .int n => toString n

/-- Model of `json.dumps(data, sort_keys=True)`: the payload rendered as a JSON object
with its keys in sorted order and the default `", "` / `": "` separators. -/
def jsonDumps (p : Payload) : String :=
  "\x7b" ++
    String.intercalate ", "
      ((sortKeys p).map (fun kv => "\"" ++ kv.1 ++ "\": " ++ kv.2.render)) ++
  "\x7d"

/-- Modelled from the spec: `hashlib.sha256(...).hexdigest()` comes from the
Python standard library, not from `src/`.  The spec treats SHA-256 as a
deterministic content digest ("the node's identity fingerprint"), so it is
modelled as an injective function of the input string: every claim below
depends only on which fields enter the digest, never on its bit-level value. -/
def sha256 (s : String) : String := "sha256(" ++ s ++ ")"

/-- One ledger event.  `hash` is the stored content hash (set by the
constructor, `Node.init` below). -/
structure Node where
  asset_id : String
  action : String
  user_id : String
  timestamp : Int
  references : List String
  signature : String
  node_id : String
  data : Payload
  hash : String
deriving DecidableEq

/-- The string `Node._calculate_hash` feeds to SHA-256:
`f"{asset_id}:{action}:{user_id}:{timestamp}:{':'.join(references)}:{signature}:{json.dumps(data, sort_keys=True)}"`. -/
def Node.hashContent (n : Node) : String :=
  n.asset_id ++ ":" ++ n.action ++ ":" ++ n.user_id ++ ":" ++
    toString n.timestamp ++ ":" ++ String.intercalate ":" n.references ++ ":" ++
    n.signature ++ ":" ++ jsonDumps n.data

/-- Model of `Node._calculate_hash`: SHA-256 of the content string. -/
def Node.calculate_hash (n : Node) : String := sha256 n.hashContent

/-- Model of `Node.__init__` with every optional argument supplied explicitly.  The
Python constructor's defaults (current wall-clock time, a random signature,
a fresh UUID) are values chosen by the environment, so callers of the model
pass them in.  The content hash is computed last, from the final field
values. -/
def Node.init (asset_id action user_id : String) (timestamp : Int)
    (references : List String) (signature node_id : String) (data : Payload) :
    Node :=
  let n : Node :=
    { asset_id, action, user_id, timestamp, references, signature, node_id,
      data, hash := "" }
  { n with hash := n.calculate_hash }

/-- The serialized form of a node: the dict `Node.to_dict` produces and
`Node.from_dict` consumes.  `from_dict` reads every key directly except
`data`, which it reads with `.get("data", {})`, so `data` is optional here. -/
structure NodeDict where
  node_id : String
  asset_id : String
  action : String
  user_id : String
  timestamp : Int
  references : List String
  signature : String
  hash : String
  data : Option Payload
deriving DecidableEq

/-- Model of `Node.to_dict`. -/
def Node.to_dict (n : Node) : NodeDict :=
  { node_id := n.node_id, asset_id := n.asset_id, action := n.action,
    user_id := n.user_id, timestamp := n.timestamp,
    references := n.references, signature := n.signature, hash := n.hash,
    data := some n.data }

/-- Model of `Node.from_dict`: rebuilds the node through `__init__`, passing every
stored field except `hash`, which `__init__` recomputes. -/
def Node.from_dict (d : NodeDict) : Node :=
  Node.init d.asset_id d.action d.user_id d.timestamp d.references
    d.signature d.node_id (d.data.getD [])

/-- The ledger store.  `nodes` models the Python dict `node_id → Node` as a
list in insertion order (admission only ever inserts fresh keys, so insertion
order is append order); `tips` models the Python set.  `storage_path` and the
file mirror (`save`/`load` side effects) are I/O and are not part of the
in-memory state transition. -/
structure DAG where
  nodes : List Node
  tips : Finset String
deriving DecidableEq

/-- A freshly constructed store (no snapshot file present). -/
def DAG.empty : DAG := { nodes := [], tips := ∅ }

/-- The keys of `self.nodes`, in insertion order. -/
def DAG.nodeIds (d : DAG) : List String := d.nodes.map Node.node_id

/-- Model of `DAG.get_asset_nodes`: all stored nodes whose `asset_id` matches, in
`self.nodes.values()` (insertion) order. -/
def DAG.get_asset_nodes (d : DAG) (asset_id : String) : List Node :=
  d.nodes.filter (fun n => n.asset_id == asset_id)

/-- Model of `asset_nodes.sort(key=lambda x: x.timestamp)`: Python's `list.sort` is a
stable sort by key, modelled by the stable `insertionSort`. -/
def DAG.sortedAssetNodes (d : DAG) (asset_id : String) : List Node :=
  (d.get_asset_nodes asset_id).insertionSort
    (fun x y => x.timestamp ≤ y.timestamp)

/-- One entry of an asset's ownership history.  `user_id` holds the owner,
which for a transfer entry is whatever value `data["recipient_id"]` holds. -/
structure OwnershipEntry where
  user_id : PValue
  timestamp : Int
  node_id : String
  action : String
deriving DecidableEq

/-- The loop body of `get_asset_ownership_history`: a `register` node appends
an entry owned by its actor; a `transfer` node appends an entry owned by its
`recipient_id` only when that key is present; every other node (in particular
`staking`) leaves the history unchanged. -/
def ownershipStep (acc : List OwnershipEntry) (n : Node) :
    List OwnershipEntry :=
  if n.action = "register" then
    acc ++ [⟨PValue.str n.user_id, n.timestamp, n.node_id, "register"⟩]
  else if n.action = "transfer" then
    match n.data.lookup "recipient_id" with
    | some v => acc ++ [⟨v, n.timestamp, n.node_id, "transfer"⟩]
    | none => acc
  else acc

/-- Model of `DAG.get_asset_ownership_history`: gather the asset's nodes, sort by
timestamp, replay. -/
def DAG.get_asset_ownership_history (d : DAG) (asset_id : String) :
    List OwnershipEntry :=
  (d.sortedAssetNodes asset_id).foldl ownershipStep []

/-- The rejection reasons `_validate_node` can return, one constructor per
distinct message, carrying the values interpolated into the message. -/
inductive Reject where
  | duplicateId (node_id : String)
  | danglingReference (ref : String)
  | tooManyReferences
  | duplicateRegistration (asset_id : String)
  | assetNotRegistered (asset_id : String)
  | notCurrentOwner (requester : String) (owner : PValue)
  | missingRecipient
deriving DecidableEq

/-- Model of `DAG._validate_node`: ordered checks, first failure wins; `none` means the
node is valid. -/
def DAG.validate_node (d : DAG) (n : Node) : Option Reject :=
  if n.node_id ∈ d.nodeIds then some (.duplicateId n.node_id)
  else
    match n.references.find? (fun r => !(d.nodeIds.contains r)) with
    | some r => some (.danglingReference r)
    | none =>
      if 2 < n.references.length then some .tooManyReferences
      else if n.action = "register" then
        match d.nodes.find?
            (fun m => m.asset_id == n.asset_id && m.action == "register") with
        | some _ => some (.duplicateRegistration n.asset_id)
        | none => none
      else if n.action = "transfer" then
        match (d.get_asset_ownership_history n.asset_id).getLast? with
        | none => some (.assetNotRegistered n.asset_id)
        | some e =>
          if e.user_id ≠ PValue.str n.user_id then
            some (.notCurrentOwner n.user_id e.user_id)
          else if (n.data.lookup "recipient_id").isNone then
            some .missingRecipient
          else none
      else if n.action = "staking" then
        match (d.get_asset_ownership_history n.asset_id).getLast? with
        | none => some (.assetNotRegistered n.asset_id)
        | some e =>
          if e.user_id ≠ PValue.str n.user_id then
            some (.notCurrentOwner n.user_id e.user_id)
          else none
      else none

/-- Model of `DAG.add_node`: validate; on failure return the store unchanged with the
reason; on success insert the node, drop its references from `tips`, add its
id to `tips` (the `save()` call is a file-system side effect outside the
state model). -/
def DAG.add_node (d : DAG) (n : Node) : DAG × Option Reject :=
  match d.validate_node n with
  | some r => (d, some r)
  | none =>
    ({ nodes := d.nodes ++ [n],
       tips := insert n.node_id (d.tips \ n.references.toFinset) }, none)

/-- Model of `node.data.get("staking_amount", 1)` followed by `total += ...`: absent
key defaults to `1`; an integer value is added as given; a string value would
raise `TypeError` in the source, modelled as `none`. -/
def stakingAmount (n : Node) : Option Int :=
  match n.data.lookup "staking_amount" with
  | none => some 1
  | some (PValue.int k) => some k
  | some (PValue.str _) => none

/-- The summation loop of `get_user_staking_balance`: left-to-right
accumulation of each node's amount onto `total`, stopping with the
`TypeError` (`none`) at the first string-valued amount. -/
def sumStakingLoop (total : Int) : List Node → Option Int
  | [] => some total
  | n :: rest =>
    match stakingAmount n with
    | some k => sumStakingLoop (total + k) rest
    | none => none

/-- Model of `DAG.get_user_staking_balance`: sum `staking_amount` over the stored
nodes with action `staking` and the given actor. -/
def DAG.get_user_staking_balance (d : DAG) (user_id : String) : Option Int :=
  sumStakingLoop 0
    (d.nodes.filter (fun n => n.action == "staking" && n.user_id == user_id))

/-- The two failures `verify_integrity` can report. -/
inductive IntegrityError where
  | danglingReference (node_id ref : String)
  | hashMismatch (node_id : String)
deriving DecidableEq

/-- The first pass of `verify_integrity`: the first node (in insertion order)
with a reference that does not resolve. -/
def DAG.findDangling (d : DAG) : Option IntegrityError :=
  d.nodes.findSome? (fun n =>
    (n.references.find? (fun r => !(d.nodeIds.contains r))).map
      (fun r => IntegrityError.danglingReference n.node_id r))

/-- The second pass of `verify_integrity`: the first node whose stored hash
differs from its recomputed content hash. -/
def DAG.findHashMismatch (d : DAG) : Option IntegrityError :=
  (d.nodes.find? (fun n => !(n.hash == n.calculate_hash))).map
    (fun n => IntegrityError.hashMismatch n.node_id)

/-- Model of `DAG.verify_integrity`: the reference pass runs first, then the hash
pass; the first violation found is reported, `none` means the store is
intact. -/
def DAG.verify_integrity (d : DAG) : Option IntegrityError :=
  (d.findDangling).orElse (fun _ => d.findHashMismatch)

/-- Model of `DAG.load`: rebuild every node from its serialized dict (through
`Node.from_dict`, hence through `__init__`, which recomputes the hash) and
take the tip set as stored.  The snapshot's outer dict keys serve only as map
keys in the source; the model keys nodes by the rebuilt node's own
`node_id`. -/
def DAG.load (snapshot : List NodeDict) (tips : Finset String) : DAG :=
  { nodes := snapshot.map Node.from_dict, tips := tips }

/-- The guarantee of `DAG.choose_references`: `random.sample(tips_list, 2)`
when at least two tips exist, otherwise all available tips — in every case a
duplicate-free selection of at most two current tips.  The random choice is
modelled as a nondeterministic one satisfying this contract. -/
def ChooseRefs (d : DAG) (refs : List String) : Prop :=
  refs.Nodup ∧ (∀ r ∈ refs, r ∈ d.tips) ∧ refs.length ≤ 2

/-- Model of `stake_asset`: build a `staking` node whose payload carries the given
`staking_amount` and submit it.  The environment-chosen parts of the node
(references from `choose_references`, the fresh UUID, the random signature,
the wall-clock timestamp) are passed in explicitly. -/
def stake_asset (d : DAG) (asset_id user_id : String) (staking_amount : Int)
    (references : List String) (node_id signature : String)
    (timestamp : Int) : DAG × Option Reject :=
  d.add_node
    (Node.init asset_id "staking" user_id timestamp references signature
      node_id [("staking_amount", PValue.int staking_amount)])

/-- The node ids that no stored node references — what the spec says `tips`
must always equal. -/
def tipsSpec (d : DAG) : Finset String :=
  ((d.nodes.filter (fun n =>
      d.nodes.all (fun m => !(m.references.contains n.node_id)))).map
    Node.node_id).toFinset

/-- The store's structural invariant: `tips` is exactly the unreferenced
frontier, node ids are unique, and every stored reference resolves. -/
def Invariant (d : DAG) : Prop :=
  d.tips = tipsSpec d ∧ d.nodeIds.Nodup ∧
    ∀ n ∈ d.nodes, ∀ r ∈ n.references, r ∈ d.nodeIds

/-- Stores reachable from the empty store by successful admissions. -/
inductive Reachable : DAG → Prop
  | empty : Reachable DAG.empty
  | step {d d' : DAG} {n : Node} :
      Reachable d → d.add_node n = (d', none) → Reachable d'

/-- The action-specific part of `_validate_node` (its step 4), as a
passes/fails flag. -/
def actionOk (d : DAG) (n : Node) : Bool :=
  if n.action = "register" then
    (d.nodes.find?
      (fun m => m.asset_id == n.asset_id && m.action == "register")).isNone
  else if n.action = "transfer" then
    match (d.get_asset_ownership_history n.asset_id).getLast? with
    | none => false
    | some e =>
      decide (e.user_id = PValue.str n.user_id) &&
        (n.data.lookup "recipient_id").isSome
  else if n.action = "staking" then
    match (d.get_asset_ownership_history n.asset_id).getLast? with
    | none => false
    | some e => decide (e.user_id = PValue.str n.user_id)
  else true

/-- The serialization C1 describes: a deterministic rendering of every
persisted field of the node — `node_id` included — in the stored field order,
with `references` joined deterministically and the payload rendered with
sorted keys. -/
def canonicalSerializationAll (n : Node) : String :=
  String.intercalate ":" [n.node_id, n.asset_id, n.action, n.user_id,
    toString n.timestamp, String.intercalate ":" n.references, n.signature,
    jsonDumps n.data]

/-- The same canonical rendering without `node_id`: the field set the code's
digest actually covers. -/
def canonicalSerialization (n : Node) : String :=
  String.intercalate ":" [n.asset_id, n.action, n.user_id,
    toString n.timestamp, String.intercalate ":" n.references, n.signature,
    jsonDumps n.data]

/-- The replay rule of §4.4, written as direct recursion over the sorted node
list: a register node contributes an entry owned by its actor, a transfer
node carrying `recipient_id` contributes an entry owned by that recipient,
every other node (staking included) is skipped. -/
def replaySpec : List Node → List OwnershipEntry
  | [] => []
  | n :: rest =>
    if n.action = "register" then
      ⟨PValue.str n.user_id, n.timestamp, n.node_id, "register"⟩ ::
        replaySpec rest
    else if n.action = "transfer" then
      match n.data.lookup "recipient_id" with
      | some v => ⟨v, n.timestamp, n.node_id, "transfer"⟩ :: replaySpec rest
      | none => replaySpec rest
    else replaySpec rest

/-- The ownership-history algorithm as §4.4 words it: gather the asset's
nodes, stable-sort them by timestamp ascending, then replay. -/
def ownershipHistorySpec (d : DAG) (asset_id : String) :
    List OwnershipEntry :=
  replaySpec ((d.nodes.filter (fun n => n.asset_id == asset_id)).insertionSort
    (fun x y => x.timestamp ≤ y.timestamp))

/-- The recipient of the last applied transfer (the last `transfer` node
carrying a `recipient_id`) in a node list, if any. -/
def lastTransferRecipient (l : List Node) : Option PValue :=
  ((l.filter (fun n => n.action == "transfer" &&
      (n.data.lookup "recipient_id").isSome)).getLast?).bind
    (fun n => n.data.lookup "recipient_id")

/-- Section 4.4's staking balance as worded by the spec: the sum, over the stored
`staking` nodes whose actor is `user_id`, of their `staking_amount`, taken
as `1` when the key is absent. -/
def staking_balance_spec (d : DAG) (user_id : String) : Int :=
  ((d.nodes.filter
      (fun n => n.action == "staking" && n.user_id == user_id)).map
    (fun n =>
      match n.data.lookup "staking_amount" with
      | some (PValue.int k) => k
      | _ => 1)).sum

/-- Concrete scenario (§8 of the spec): asset `A1` registered by `U1`. -/
def regNode1 : Node :=
  Node.init "A1" "register" "U1" 1 [] "sig1" "n1" [("name", .str "Painting")]

/-- Store after registering `A1`. -/
def dag1 : DAG := (DAG.empty.add_node regNode1).1

/-- Asset `A1` transferred from `U1` to `U2`. -/
def trNode1 : Node :=
  Node.init "A1" "transfer" "U1" 2 ["n1"] "sig2" "n2"
    [("recipient_id", .str "U2")]

/-- Store after the transfer. -/
def dag2 : DAG := (dag1.add_node trNode1).1

/-- Asset `A1` staked by its new owner `U2` with amount 5. -/
def stNode1 : Node :=
  Node.init "A1" "staking" "U2" 3 ["n2"] "sig3" "n3"
    [("staking_amount", .int 5)]

/-- Store after the stake. -/
def dag3 : DAG := (dag2.add_node stNode1).1

/-- Asset `A1` transferred on from `U2` to `U3` (so `U2` no longer owns it). -/
def trNode2 : Node :=
  Node.init "A1" "transfer" "U2" 4 ["n3"] "sig4" "n4"
    [("recipient_id", .str "U3")]

/-- Store after the second transfer. -/
def dag4 : DAG := (dag3.add_node trNode2).1

/-- A candidate transfer of `A1` by a non-owner carrying three references. -/
def trMal : Node :=
  Node.init "A1" "transfer" "mallory" 2 ["n1", "n1", "n1"] "sigX" "nX"
    [("recipient_id", .str "M")]

/-- A candidate transfer of `A1` by a non-owner passing the structural
checks. -/
def trMal2 : Node :=
  Node.init "A1" "transfer" "mallory" 2 ["n1"] "sigY" "nY"
    [("recipient_id", .str "M")]

/-- A second registration of `A1` by a different user. -/
def regNode1Dup : Node :=
  Node.init "A1" "register" "U9" 4 [] "sigD" "nD" []

/-- A staking candidate for `A1` referencing `n1`, which is no longer a tip
of `dag2`. -/
def stNonTip : Node :=
  Node.init "A1" "staking" "U2" 3 ["n1"] "sigZ" "nZ"
    [("staking_amount", .int 2)]

/-- Backdated-transfer scenario: asset `B1` registered by `A` at time 10. -/
def regNodeB : Node := Node.init "B1" "register" "A" 10 [] "sigB1" "b1" []

/-- Store after registering `B1`. -/
def dagB1 : DAG := (DAG.empty.add_node regNodeB).1

/-- A transfer of `B1` by its owner `A` to `B` carrying timestamp 5 — earlier
than the registration's timestamp. -/
def trNodeB : Node :=
  Node.init "B1" "transfer" "A" 5 ["b1"] "sigB2" "b2"
    [("recipient_id", .str "B")]

/-- Store after admitting the backdated transfer. -/
def dagB2 : DAG := (dagB1.add_node trNodeB).1

/-- A candidate is valid exactly when its id is fresh, its references all
resolve, it has at most two references, and its action-specific rule holds. -/
theorem validate_none_iff (d : DAG) (n : Node) :
    d.validate_node n = none ↔
      n.node_id ∉ d.nodeIds ∧ (∀ r ∈ n.references, r ∈ d.nodeIds) ∧
        n.references.length ≤ 2 ∧ actionOk d n = true := by
  by_cases hdup : n.node_id ∈ d.nodeIds
  · simp [DAG.validate_node, hdup]
  · rcases hfind : n.references.find? (fun r => !(decide (r ∈ d.nodeIds)))
      with _ | r
    · have hall : ∀ r ∈ n.references, r ∈ d.nodeIds := by
        intro r hr
        simpa using List.find?_eq_none.mp hfind r hr
      by_cases hlen : 2 < n.references.length
      · have hv : d.validate_node n = some .tooManyReferences := by
          simp [DAG.validate_node, hdup, hfind, hlen]
        have hlen2 : ¬ n.references.length ≤ 2 := by omega
        simp [hv, hlen2]
      · have hlen2 : n.references.length ≤ 2 := by omega
        by_cases hreg : n.action = "register"
        · rcases hm : d.nodes.find?
              (fun m => m.asset_id == n.asset_id && m.action == "register")
            with _ | m
          · have hv : d.validate_node n = none := by
              simp [DAG.validate_node, hdup, hfind, hlen, hreg, hm]
            simp [hv, actionOk, hreg, hm, hall, hlen2, hdup]
            exact hall
          · have hv : d.validate_node n =
                some (.duplicateRegistration n.asset_id) := by
              simp [DAG.validate_node, hdup, hfind, hlen, hreg, hm]
            simp [hv, actionOk, hreg, hm]
        · by_cases htr : n.action = "transfer"
          · rcases hl : (d.get_asset_ownership_history n.asset_id).getLast?
              with _ | e
            · have hv : d.validate_node n =
                  some (.assetNotRegistered n.asset_id) := by
                simp [DAG.validate_node, hdup, hfind, hlen, hreg, htr, hl]
              simp [hv, actionOk, hreg, htr, hl]
            · by_cases hown : e.user_id = PValue.str n.user_id
              · rcases hrec : n.data.lookup "recipient_id" with _ | v
                · have hv : d.validate_node n = some .missingRecipient := by
                    simp [DAG.validate_node, hdup, hfind, hlen, hreg, htr,
                      hl, hown, hrec]
                  simp [hv, actionOk, hreg, htr, hl, hown, hrec]
                · have hv : d.validate_node n = none := by
                    simp [DAG.validate_node, hdup, hfind, hlen, hreg, htr,
                      hl, hown, hrec]
                  simp [hv, actionOk, hreg, htr, hl, hown, hrec, hall,
                    hlen2, hdup]
                  exact hall
              · have hv : d.validate_node n =
                    some (.notCurrentOwner n.user_id e.user_id) := by
                  simp [DAG.validate_node, hdup, hfind, hlen, hreg, htr,
                    hl, hown]
                simp [hv, actionOk, hreg, htr, hl, hown]
          · by_cases hst : n.action = "staking"
            · rcases hl :
                  (d.get_asset_ownership_history n.asset_id).getLast?
                with _ | e
              · have hv : d.validate_node n =
                    some (.assetNotRegistered n.asset_id) := by
                  simp [DAG.validate_node, hdup, hfind, hlen, hreg, htr,
                    hst, hl]
                simp [hv, actionOk, hreg, htr, hst, hl]
              · by_cases hown : e.user_id = PValue.str n.user_id
                · have hv : d.validate_node n = none := by
                    simp [DAG.validate_node, hdup, hfind, hlen, hreg, htr,
                      hst, hl, hown]
                  simp [hv, actionOk, hreg, htr, hst, hl, hown, hall,
                    hlen2, hdup]
                  exact hall
                · have hv : d.validate_node n =
                      some (.notCurrentOwner n.user_id e.user_id) := by
                    simp [DAG.validate_node, hdup, hfind, hlen, hreg, htr,
                      hst, hl, hown]
                  simp [hv, actionOk, hreg, htr, hst, hl, hown]
            · have hv : d.validate_node n = none := by
                simp [DAG.validate_node, hdup, hfind, hlen, hreg, htr, hst]
              simp [hv, actionOk, hreg, htr, hst, hall, hlen2, hdup]
              exact hall
    · have hmem := List.mem_of_find?_eq_some hfind
      have hpred : r ∉ d.nodeIds := by
        have h1 := List.find?_some hfind
        simpa using h1
      have hv : d.validate_node n = some (.danglingReference r) := by
        simp [DAG.validate_node, hdup, hfind]
      rw [hv]
      simp only [reduceCtorEq, false_iff, not_and]
      intro _ hall
      exact absurd (hall r hmem) hpred

/-- On a failed validation, `add_node` surfaces the reason and the store is
untouched. -/
theorem add_node_of_invalid {d : DAG} {n : Node} {r : Reject}
    (h : d.validate_node n = some r) : d.add_node n = (d, some r) := by
  unfold DAG.add_node
  rw [h]

/-- On a successful validation, `add_node` appends the node and updates the
tip set. -/
theorem add_node_of_valid {d : DAG} {n : Node}
    (h : d.validate_node n = none) :
    d.add_node n =
      ({ nodes := d.nodes ++ [n],
         tips := insert n.node_id (d.tips \ n.references.toFinset) }, none) := by
  unfold DAG.add_node
  rw [h]

/-- Membership in the unreferenced frontier. -/
theorem mem_tipsSpec {d : DAG} {x : String} :
    x ∈ tipsSpec d ↔
      (∃ p ∈ d.nodes, p.node_id = x) ∧ ∀ m ∈ d.nodes, x ∉ m.references := by
  simp only [tipsSpec, List.mem_toFinset, List.mem_map, List.mem_filter,
    List.all_eq_true, Bool.not_eq_true']
  constructor
  · rintro ⟨p, ⟨hp, hall⟩, rfl⟩
    refine ⟨⟨p, hp, rfl⟩, fun m hm => ?_⟩
    simpa using hall m hm
  · rintro ⟨⟨p, hp, rfl⟩, hall⟩
    refine ⟨p, ⟨hp, fun m hm => ?_⟩, rfl⟩
    simpa using hall m hm

/-- Appending a fresh node with resolving references moves the frontier the
way `add_node` moves `tips`: the node's parents leave, the node enters. -/
theorem tipsSpec_append {d : DAG} {n : Node} (t : Finset String)
    (hfresh : n.node_id ∉ d.nodeIds)
    (hrefs : ∀ r ∈ n.references, r ∈ d.nodeIds)
    (hclosed : ∀ m ∈ d.nodes, ∀ r ∈ m.references, r ∈ d.nodeIds) :
    tipsSpec { nodes := d.nodes ++ [n], tips := t } =
      insert n.node_id (tipsSpec d \ n.references.toFinset) := by
  ext x
  constructor
  · intro hmem
    obtain ⟨⟨p, hp, rfl⟩, hall⟩ := mem_tipsSpec.mp hmem
    rcases List.mem_append.mp hp with hp | hp
    · refine Finset.mem_insert.mpr (Or.inr (Finset.mem_sdiff.mpr ⟨?_, ?_⟩))
      · exact mem_tipsSpec.mpr
          ⟨⟨p, hp, rfl⟩, fun m hm => hall m (List.mem_append.mpr (Or.inl hm))⟩
      · intro hin
        exact hall n (List.mem_append.mpr (Or.inr (List.mem_singleton_self _)))
          (List.mem_toFinset.mp hin)
    · obtain rfl := List.mem_singleton.mp hp
      exact Finset.mem_insert_self _ _
  · intro hmem
    rcases Finset.mem_insert.mp hmem with rfl | hmem
    · refine mem_tipsSpec.mpr
        ⟨⟨n, List.mem_append.mpr (Or.inr (List.mem_singleton_self _)), rfl⟩, ?_⟩
      intro m hm
      rcases List.mem_append.mp hm with hm | hm
      · exact fun hin => hfresh (hclosed m hm _ hin)
      · obtain rfl := List.mem_singleton.mp hm
        exact fun hin => hfresh (hrefs _ hin)
    · obtain ⟨hts, hnr⟩ := Finset.mem_sdiff.mp hmem
      obtain ⟨⟨p, hp, rfl⟩, hall⟩ := mem_tipsSpec.mp hts
      refine mem_tipsSpec.mpr
        ⟨⟨p, List.mem_append.mpr (Or.inl hp), rfl⟩, ?_⟩
      intro m hm
      rcases List.mem_append.mp hm with hm | hm
      · exact hall m hm
      · obtain rfl := List.mem_singleton.mp hm
        exact fun hin => hnr (List.mem_toFinset.mpr hin)

/-- Every reachable store satisfies the structural invariant: `tips` is
exactly the unreferenced frontier, node ids are unique, and all stored
references resolve. -/
theorem reachable_invariant {d : DAG} (h : Reachable d) : Invariant d := by
  induction h with
  | empty =>
    refine ⟨?_, ?_, ?_⟩ <;> simp [Invariant, DAG.empty, tipsSpec, DAG.nodeIds]
  | @step d d' n _ hadd ih =>
    rcases ih with ⟨htips, hnodup, hclosed⟩
    have hvn : d.validate_node n = none := by
      by_contra hne
      rcases Option.ne_none_iff_exists'.mp hne with ⟨r, hr⟩
      rw [add_node_of_invalid hr] at hadd
      exact Option.noConfusion (congrArg Prod.snd hadd)
    obtain ⟨hfresh, hrefs, -, -⟩ := (validate_none_iff d n).mp hvn
    have hd' : d' =
        { nodes := d.nodes ++ [n],
          tips := insert n.node_id (d.tips \ n.references.toFinset) } := by
      rw [add_node_of_valid hvn] at hadd
      exact (congrArg Prod.fst hadd).symm
    subst hd'
    refine ⟨?_, ?_, ?_⟩
    · show insert n.node_id (d.tips \ n.references.toFinset) = _
      rw [htips, tipsSpec_append _ hfresh hrefs hclosed]
    · show ((d.nodes ++ [n]).map Node.node_id).Nodup
      rw [List.map_append]
      simp only [List.map_cons, List.map_nil]
      rw [List.nodup_append]
      refine ⟨hnodup, List.nodup_singleton _, fun x hx hx' => hfresh ?_⟩
      rw [← List.mem_singleton.mp hx']
      exact hx
    · intro m hm r hr
      have hsub : ∀ x, x ∈ d.nodeIds →
          x ∈ (DAG.mk (d.nodes ++ [n])
            (insert n.node_id (d.tips \ n.references.toFinset))).nodeIds := by
        intro x hx
        show x ∈ (d.nodes ++ [n]).map Node.node_id
        rw [List.map_append]
        exact List.mem_append.mpr (Or.inl hx)
      rcases List.mem_append.mp hm with hm | hm
      · exact hsub _ (hclosed m hm r hr)
      · rw [List.mem_singleton.mp hm] at hr
        exact hsub _ (hrefs r hr)

/-- The code's digest input is exactly the canonical serialization of the
seven fields other than `node_id`. -/
theorem hashContent_eq_canonical (n : Node) :
    n.hashContent = canonicalSerialization n := by
  simp [Node.hashContent, canonicalSerialization, String.intercalate,
    String.intercalate.go, String.append_assoc]

/-- The code's accumulator loop is the spec's replay. -/
theorem foldl_ownershipStep (acc : List OwnershipEntry) (l : List Node) :
    l.foldl ownershipStep acc = acc ++ replaySpec l := by
  induction l generalizing acc with
  | nil => simp [replaySpec]
  | cons n rest ih =>
    rw [List.foldl_cons, ih]
    by_cases h1 : n.action = "register"
    · simp [ownershipStep, replaySpec, h1]
    · by_cases h2 : n.action = "transfer"
      · rcases hr : n.data.lookup "recipient_id" with _ | v <;>
          simp [ownershipStep, replaySpec, h1, h2, hr]
      · simp [ownershipStep, replaySpec, h1, h2]

/-- The function `get_asset_ownership_history` computes the spec's gather-sort-replay. -/
theorem ownership_history_eq_spec (d : DAG) (asset_id : String) :
    d.get_asset_ownership_history asset_id = ownershipHistorySpec d asset_id := by
  unfold DAG.get_asset_ownership_history ownershipHistorySpec
    DAG.sortedAssetNodes DAG.get_asset_nodes
  rw [foldl_ownershipStep]
  simp

/-- Inserting into a list moves the new element past exactly the
strictly-smaller timestamps, so any fixed-timestamp fibre is either preserved
or gets the new element prepended. -/
theorem filter_orderedInsert (a : Node) (l : List Node) (t : Int) :
    ((l.orderedInsert (fun x y => x.timestamp ≤ y.timestamp) a).filter
        (fun n => n.timestamp == t)) =
      if a.timestamp = t then a :: l.filter (fun n => n.timestamp == t)
      else l.filter (fun n => n.timestamp == t) := by
  induction l with
  | nil => by_cases h : a.timestamp = t <;> simp [List.orderedInsert, h]
  | cons b l ih =>
    rw [List.orderedInsert]
    by_cases hr : a.timestamp ≤ b.timestamp
    · rw [if_pos hr]
      by_cases ha : a.timestamp = t <;> by_cases hb : b.timestamp = t <;>
        simp [List.filter_cons, ha, hb]
    · rw [if_neg hr]
      by_cases ha : a.timestamp = t
      · by_cases hb : b.timestamp = t
        · exact absurd (by rw [ha, hb] : a.timestamp ≤ b.timestamp) hr
        · simp [List.filter_cons, ha, hb, ih]
      · by_cases hb : b.timestamp = t <;> simp [List.filter_cons, ha, hb, ih]

/-- The timestamp sort is stable: every fixed-timestamp fibre of the sorted
list equals the fibre of the input, i.e. ties keep their input (insertion)
order. -/
theorem filter_timestamp_insertionSort (l : List Node) (t : Int) :
    ((l.insertionSort (fun x y => x.timestamp ≤ y.timestamp)).filter
      (fun n => n.timestamp == t)) = l.filter (fun n => n.timestamp == t) := by
  induction l with
  | nil => rfl
  | cons a l ih =>
    rw [List.insertionSort, filter_orderedInsert]
    by_cases ha : a.timestamp = t <;> simp [List.filter_cons, ha, ih]

/-- The replay distributes over append. -/
theorem replaySpec_append (l₁ l₂ : List Node) :
    replaySpec (l₁ ++ l₂) = replaySpec l₁ ++ replaySpec l₂ := by
  induction l₁ with
  | nil => rfl
  | cons n rest ih =>
    rw [List.cons_append]
    by_cases h1 : n.action = "register"
    · simp [replaySpec, h1, ih]
    · by_cases h2 : n.action = "transfer"
      · rcases hr : n.data.lookup "recipient_id" with _ | v <;>
          simp [replaySpec, h1, h2, hr, ih]
      · simp [replaySpec, h1, h2, ih]

/-- Replaying a register node followed by register-free nodes ends with the
last applied transfer's recipient as owner, or the registrant if there is
none. -/
theorem replaySpec_getLast (reg : Node) (rest : List Node)
    (hreg : reg.action = "register")
    (hrest : ∀ m ∈ rest, m.action ≠ "register") :
    (replaySpec (reg :: rest)).getLast?.map OwnershipEntry.user_id =
      some ((lastTransferRecipient rest).getD (PValue.str reg.user_id)) := by
  induction rest using List.reverseRecOn with
  | nil => simp [replaySpec, hreg, lastTransferRecipient]
  | append_singleton rest m ih =>
    have hrest' : ∀ p ∈ rest, p.action ≠ "register" := fun p hp =>
      hrest p (List.mem_append.mpr (Or.inl hp))
    have hm : m.action ≠ "register" :=
      hrest m (List.mem_append.mpr (Or.inr (List.mem_singleton_self _)))
    rw [show reg :: (rest ++ [m]) = (reg :: rest) ++ [m] from rfl,
      replaySpec_append]
    by_cases h2 : m.action = "transfer"
    · rcases hr : m.data.lookup "recipient_id" with _ | v
      · have hskip : replaySpec [m] = [] := by
          simp [replaySpec, hm, h2, hr]
        have hfil : lastTransferRecipient (rest ++ [m]) =
            lastTransferRecipient rest := by
          unfold lastTransferRecipient
          rw [List.filter_append]
          simp [h2, hr]
        rw [hskip, List.append_nil, hfil]
        exact ih hrest'
      · have happ : replaySpec [m] = [⟨v, m.timestamp, m.node_id, "transfer"⟩] := by
          simp [replaySpec, hm, h2, hr]
        have hfil : lastTransferRecipient (rest ++ [m]) = some v := by
          unfold lastTransferRecipient
          rw [List.filter_append]
          simp [h2, hr]
        rw [happ, List.getLast?_concat, hfil]
        simp
    · have hskip : replaySpec [m] = [] := by
        simp [replaySpec, hm, h2]
      have hfil : lastTransferRecipient (rest ++ [m]) =
          lastTransferRecipient rest := by
        unfold lastTransferRecipient
        rw [List.filter_append]
        simp [h2]
      rw [hskip, List.append_nil, hfil]
      exact ih hrest'

/-- When every amount in the list is well typed, the summation loop returns
the accumulator plus the pure sum of the defaulted amounts. -/
theorem sumStakingLoop_eq (l : List Node) (total : Int)
    (h : ∀ n ∈ l, stakingAmount n ≠ none) :
    sumStakingLoop total l =
      some (total + (l.map (fun n => (stakingAmount n).getD 1)).sum) := by
  induction l generalizing total with
  | nil => simp [sumStakingLoop]
  | cons a l ih =>
    rcases haa : stakingAmount a with _ | k
    · exact absurd haa (h a (List.mem_cons_self a l))
    · have ih' := ih (total + k) (fun n hn => h n (List.mem_cons_of_mem a hn))
      simp only [sumStakingLoop, haa, ih', List.map_cons, List.sum_cons,
        Option.getD_some]
      congr 1
      ring

/-- The defaulted amount agrees with the spec's per-node amount. -/
theorem stakingAmount_getD (n : Node) :
    (stakingAmount n).getD 1 =
      match n.data.lookup "staking_amount" with
      | some (PValue.int k) => k
      | _ => 1 := by
  unfold stakingAmount
  rcases n.data.lookup "staking_amount" with _ | v
  · rfl
  · rcases v with s | k <;> rfl

/-- C1 fails as stated: the content hash does not cover `node_id`.  Two nodes
built by the constructor that differ only in `node_id` get the same stored
hash, and the stored hash differs from the digest of the claimed
canonical serialization of all persisted fields (which includes
`node_id`). -/
theorem hash_covers_node_id_cex :
    (Node.init "A1" "register" "U1" 1 [] "sig1" "idA" []).hash =
      (Node.init "A1" "register" "U1" 1 [] "sig1" "idB" []).hash ∧
    ("idA" : String) ≠ "idB" ∧
    (Node.init "A1" "register" "U1" 1 [] "sig1" "idA" []).hash ≠
      sha256 (canonicalSerializationAll
        (Node.init "A1" "register" "U1" 1 [] "sig1" "idA" [])) := by
  refine ⟨rfl, by decide, by decide⟩

/-- C1 (amended): for every node produced by the constructor, the stored
content hash equals the SHA-256 digest of the canonical serialization of the
persisted fields other than `node_id` — asset_id, action, actor, timestamp,
references (joined deterministically), signature and the payload with sorted
keys — computed last, so it covers the final values of those fields. -/
theorem node_hash_eq_canonical_digest (asset_id action user_id : String)
    (timestamp : Int) (references : List String) (signature node_id : String)
    (data : Payload) :
    (Node.init asset_id action user_id timestamp references signature
        node_id data).hash =
      sha256 (canonicalSerialization
        (Node.init asset_id action user_id timestamp references signature
          node_id data)) := by
  rw [← hashContent_eq_canonical]
  rfl

/-- C2: in every store reachable from the empty store by successful
admissions, `tips` is exactly the set of stored node ids that no stored
node references. -/
theorem tips_exactly_unreferenced {d : DAG} (h : Reachable d) :
    d.tips = tipsSpec d :=
  (reachable_invariant h).1

/-- Witness for C2 at the concrete three-admission store. -/
theorem tips_exactly_unreferenced_witness :
    Reachable dag3 ∧ dag3.tips = tipsSpec dag3 := by
  have h1 : Reachable dag1 :=
    @Reachable.step DAG.empty dag1 regNode1 Reachable.empty (by decide)
  have h2 : Reachable dag2 := @Reachable.step dag1 dag2 trNode1 h1 (by decide)
  have h3 : Reachable dag3 := @Reachable.step dag2 dag3 stNode1 h2 (by decide)
  exact ⟨h3, tips_exactly_unreferenced h3⟩

/-- C3 fails as stated: a transfer on a registered asset by a non-owner can
be rejected with a different reason — here the too-many-references check
fires first, not the not-current-owner one (the store is still unchanged). -/
theorem nonowner_rejection_reason_cex :
    (dag1.get_asset_ownership_history "A1").getLast?.map
        OwnershipEntry.user_id = some (PValue.str "U1") ∧
    PValue.str "U1" ≠ PValue.str "mallory" ∧
    dag1.add_node trMal = (dag1, some Reject.tooManyReferences) ∧
    dag1.add_node trMal ≠
      (dag1, some (Reject.notCurrentOwner "mallory" (PValue.str "U1"))) := by
  refine ⟨by decide, by decide, by decide, by decide⟩

/-- C3 (amended): a transfer or stake on an asset with a non-empty ownership
history whose actor is not the derived current owner, and which passes the
structural checks (fresh id, resolving references, at most two of them), is
rejected with the not-current-owner reason and leaves the store unchanged. -/
theorem nonowner_rejected (d : DAG) (n : Node)
    (hact : n.action = "transfer" ∨ n.action = "staking")
    (hfresh : n.node_id ∉ d.nodeIds)
    (hrefs : ∀ r ∈ n.references, r ∈ d.nodeIds)
    (hlen : n.references.length ≤ 2)
    (e : OwnershipEntry)
    (hlast : (d.get_asset_ownership_history n.asset_id).getLast? = some e)
    (hown : e.user_id ≠ PValue.str n.user_id) :
    d.add_node n = (d, some (Reject.notCurrentOwner n.user_id e.user_id)) := by
  have hfind : n.references.find? (fun r => !(decide (r ∈ d.nodeIds))) =
      none :=
    List.find?_eq_none.mpr (fun r hr => by simpa using hrefs r hr)
  have hlen' : ¬ 2 < n.references.length := by omega
  rcases hact with hact | hact
  · have hv : d.validate_node n =
        some (.notCurrentOwner n.user_id e.user_id) := by
      have hreg : ¬ n.action = "register" := by simp [hact]
      simp [DAG.validate_node, hfresh, hfind, hlen', hreg, hact, hlast, hown]
    exact add_node_of_invalid hv
  · have hv : d.validate_node n =
        some (.notCurrentOwner n.user_id e.user_id) := by
      have hreg : ¬ n.action = "register" := by simp [hact]
      have htr : ¬ n.action = "transfer" := by simp [hact]
      simp [DAG.validate_node, hfresh, hfind, hlen', hreg, htr, hact, hlast,
        hown]
    exact add_node_of_invalid hv

/-- Witness for the amended C3: a structurally valid transfer of `A1` by
`mallory` is rejected as not-current-owner and the store is unchanged. -/
theorem nonowner_rejected_witness :
    (trMal2.action = "transfer" ∨ trMal2.action = "staking") ∧
    trMal2.node_id ∉ dag1.nodeIds ∧
    (dag1.get_asset_ownership_history trMal2.asset_id).getLast? =
      some ⟨PValue.str "U1", 1, "n1", "register"⟩ ∧
    dag1.add_node trMal2 =
      (dag1, some (Reject.notCurrentOwner "mallory" (PValue.str "U1"))) := by
  refine ⟨Or.inl (by decide), by decide, by decide, ?_⟩
  exact nonowner_rejected dag1 trMal2 (Or.inl (by decide)) (by decide)
    (by decide) (by decide) ⟨PValue.str "U1", 1, "n1", "register"⟩
    (by decide) (by decide)

/-- C4: once a register node for an asset is stored, any further register
candidate for the same asset is rejected and the store's nodes and tips are
unchanged. -/
theorem double_registration_rejected (d : DAG) (n : Node)
    (hact : n.action = "register") (m : Node) (hm : m ∈ d.nodes)
    (hma : m.asset_id = n.asset_id) (hmr : m.action = "register") :
    (d.add_node n).1 = d ∧ (d.add_node n).2.isSome := by
  have hv : d.validate_node n ≠ none := by
    intro hvn
    obtain ⟨-, -, -, hok⟩ := (validate_none_iff d n).mp hvn
    rw [actionOk, if_pos hact] at hok
    have hnone : d.nodes.find?
        (fun p => p.asset_id == n.asset_id && p.action == "register") =
        none := Option.isNone_iff_eq_none.mp hok
    have := List.find?_eq_none.mp hnone m hm
    simp [hma, hmr] at this
  rcases ho : d.validate_node n with _ | r
  · exact absurd ho hv
  · rw [add_node_of_invalid ho]
    exact ⟨rfl, rfl⟩

/-- Witness for C4: re-registering `A1` on `dag1` is rejected and the store
is unchanged. -/
theorem double_registration_rejected_witness :
    regNode1Dup.action = "register" ∧ regNode1 ∈ dag1.nodes ∧
    regNode1.asset_id = regNode1Dup.asset_id ∧
    regNode1.action = "register" ∧
    (dag1.add_node regNode1Dup).1 = dag1 ∧
    (dag1.add_node regNode1Dup).2.isSome := by
  refine ⟨by decide, by decide, by decide, by decide, ?_⟩
  exact double_registration_rejected dag1 regNode1Dup (by decide) regNode1
    (by decide) (by decide) (by decide)

/-- C5 fails as stated: a transfer admitted with a timestamp earlier than
the registration's sorts before the register node, so the register overrides
it in the replay — the current owner is the registrant `A`, not the
recipient `B` of the last applied transfer. -/
theorem ownership_last_transfer_cex :
    (DAG.empty.add_node regNodeB).2 = none ∧
    (dagB1.add_node trNodeB).2 = none ∧
    lastTransferRecipient (dagB2.sortedAssetNodes "B1") =
      some (PValue.str "B") ∧
    (dagB2.get_asset_ownership_history "B1").getLast?.map
      OwnershipEntry.user_id = some (PValue.str "A") ∧
    PValue.str "A" ≠ PValue.str "B" := by
  refine ⟨by decide, by decide, by decide, by decide, by decide⟩

/-- C5 (amended): `get_asset_ownership_history` gathers the asset's nodes,
sorts them by timestamp ascending — stably, a permutation whose
equal-timestamp fibres keep insertion order — and replays them per the spec
(register → actor, transfer → recipient when present, staking excluded),
returning the empty sequence when the asset has no nodes; and whenever the
sorted list starts with the asset's only register node, the last history
entry's owner is the recipient of the last applied transfer, or the
registrant if there is none.  (As stated the claim also demanded this last
equality when a register node sorts after an applied transfer, which the
counterexample refutes.) -/
theorem ownership_history_correct (d : DAG) (asset_id : String) :
    (d.get_asset_nodes asset_id = [] →
      d.get_asset_ownership_history asset_id = []) ∧
    (d.sortedAssetNodes asset_id).Perm (d.get_asset_nodes asset_id) ∧
    (d.sortedAssetNodes asset_id).Pairwise
      (fun x y => x.timestamp ≤ y.timestamp) ∧
    (∀ t, (d.sortedAssetNodes asset_id).filter (fun n => n.timestamp == t) =
      (d.get_asset_nodes asset_id).filter (fun n => n.timestamp == t)) ∧
    d.get_asset_ownership_history asset_id =
      ownershipHistorySpec d asset_id ∧
    (∀ reg rest, d.sortedAssetNodes asset_id = reg :: rest →
      reg.action = "register" → (∀ m ∈ rest, m.action ≠ "register") →
      (d.get_asset_ownership_history asset_id).getLast?.map
          OwnershipEntry.user_id =
        some ((lastTransferRecipient rest).getD (PValue.str reg.user_id))) := by
  refine ⟨?_, ?_, ?_, ?_, ?_, ?_⟩
  · intro hempty
    unfold DAG.get_asset_ownership_history DAG.sortedAssetNodes
    rw [hempty]
    rfl
  · exact List.perm_insertionSort _ _
  · haveI : IsTotal Node (fun x y => x.timestamp ≤ y.timestamp) :=
      ⟨fun a b => le_total a.timestamp b.timestamp⟩
    haveI : IsTrans Node (fun x y => x.timestamp ≤ y.timestamp) :=
      ⟨fun a b c hab hbc => le_trans hab hbc⟩
    exact List.sorted_insertionSort _ _
  · exact fun t => filter_timestamp_insertionSort (d.get_asset_nodes asset_id) t
  · exact ownership_history_eq_spec d asset_id
  · intro reg rest heq hreg hrest
    have hhist : d.get_asset_ownership_history asset_id =
        replaySpec (reg :: rest) := by
      unfold DAG.get_asset_ownership_history
      rw [heq, foldl_ownershipStep]
      simp
    rw [hhist]
    exact replaySpec_getLast reg rest hreg hrest

/-- Witness for the amended C5 at the register-then-transfer store: the
derived owner is the recipient of the last applied transfer. -/
theorem ownership_history_correct_witness :
    dag2.sortedAssetNodes "A1" = [regNode1, trNode1] ∧
    (dag2.get_asset_ownership_history "A1").getLast?.map
        OwnershipEntry.user_id =
      some ((lastTransferRecipient [trNode1]).getD
        (PValue.str regNode1.user_id)) := by
  refine ⟨by decide, ?_⟩
  exact (ownership_history_correct dag2 "A1").2.2.2.2.2 regNode1 [trNode1]
    (by decide) (by decide) (by decide)

/-- C6: serializing a node to its dictionary and deserializing it back gives
the node field-for-field, content hash included — for every node whose
stored hash is the constructor-computed digest, which holds of every node
the program builds. -/
theorem serialize_roundtrip (n : Node) (h : n.hash = n.calculate_hash) :
    Node.from_dict n.to_dict = n := by
  cases n with
  | mk a ac u ts refs sig nid dat hs =>
    simp only [Node.from_dict, Node.to_dict, Node.init, Option.getD_some,
      Node.mk.injEq, true_and, and_true]
    exact h.symm

/-- Witness for C6 at a concrete staking node. -/
theorem serialize_roundtrip_witness :
    stNode1.hash = stNode1.calculate_hash ∧
    Node.from_dict stNode1.to_dict = stNode1 :=
  ⟨rfl, serialize_roundtrip stNode1 rfl⟩

/-- C7: the staking balance is the sum, over the stored staking nodes of the
user, of their `staking_amount` (1 when absent), and it depends only on
those staking nodes: any store with the same staking nodes for the user —
regardless of what the user currently owns — yields the same balance. -/
theorem staking_balance_correct (d d' : DAG) (user_id : String)
    (hok : ∀ n ∈ d.nodes.filter
        (fun n => n.action == "staking" && n.user_id == user_id),
      stakingAmount n ≠ none)
    (hsame : d'.nodes.filter
        (fun n => n.action == "staking" && n.user_id == user_id) =
      d.nodes.filter
        (fun n => n.action == "staking" && n.user_id == user_id)) :
    d.get_user_staking_balance user_id =
      some (staking_balance_spec d user_id) ∧
    d'.get_user_staking_balance user_id =
      d.get_user_staking_balance user_id := by
  constructor
  · rw [DAG.get_user_staking_balance, sumStakingLoop_eq _ _ hok,
      staking_balance_spec, zero_add]
    congr 1
    exact congrArg List.sum
      (List.map_congr_left (fun n _ => stakingAmount_getD n))
  · rw [DAG.get_user_staking_balance, DAG.get_user_staking_balance, hsame]

/-- Witness for C7: `U2` staked 5 and then transferred the asset away; the
balance is still 5 and agrees with the pre-transfer store's balance. -/
theorem staking_balance_correct_witness :
    dag3.nodes.filter
        (fun n => n.action == "staking" && n.user_id == "U2") =
      dag4.nodes.filter
        (fun n => n.action == "staking" && n.user_id == "U2") ∧
    dag4.get_user_staking_balance "U2" =
      some (staking_balance_spec dag4 "U2") ∧
    dag3.get_user_staking_balance "U2" =
      dag4.get_user_staking_balance "U2" ∧
    dag4.get_user_staking_balance "U2" = some 5 := by
  refine ⟨by decide, ?_, ?_, by decide⟩
  · exact (staking_balance_correct dag4 dag3 "U2" (by decide) (by decide)).1
  · exact (staking_balance_correct dag4 dag3 "U2" (by decide) (by decide)).2

/-- C8: deserialization discards the stored hash — `from_dict` gives the
same node whatever hash the dict carries, every loaded node's hash is the
recomputed one, so the hash pass of `verify_integrity` always succeeds on a
loaded store and only a dangling reference can ever be reported there. -/
theorem load_recomputes_hashes (snapshot : List NodeDict)
    (tips : Finset String) (dict : NodeDict) (h' : String) :
    Node.from_dict { dict with hash := h' } = Node.from_dict dict ∧
    (DAG.load snapshot tips).findHashMismatch = none ∧
    (∀ e, (DAG.load snapshot tips).verify_integrity = some e →
      ∃ nid ref, e = IntegrityError.danglingReference nid ref) := by
  have hnone : ((DAG.load snapshot tips).nodes.find?
      (fun n => !(n.hash == n.calculate_hash))) = none := by
    apply List.find?_eq_none.mpr
    intro n hn
    obtain ⟨dct, hdct, rfl⟩ := List.mem_map.mp hn
    have : (Node.from_dict dct).hash = (Node.from_dict dct).calculate_hash :=
      rfl
    simp [this]
  have hmm : (DAG.load snapshot tips).findHashMismatch = none := by
    unfold DAG.findHashMismatch
    rw [hnone]
    rfl
  refine ⟨rfl, hmm, ?_⟩
  intro e he
  unfold DAG.verify_integrity at he
  rcases hd : (DAG.load snapshot tips).findDangling with _ | e'
  · rw [hd] at he
    simp [hmm] at he
  · rw [hd] at he
    simp at he
    obtain ⟨n, hn, hf⟩ := List.exists_of_findSome?_eq_some hd
    obtain ⟨r, hr, hshape⟩ := Option.map_eq_some'.mp hf
    exact ⟨n.node_id, r, by rw [← he, ← hshape]⟩

/-- Witness for C8: a snapshot whose stored hash was corrupted still loads
into a store whose hash pass succeeds. -/
theorem load_recomputes_hashes_witness :
    Node.from_dict { stNode1.to_dict with hash := "corrupted" } =
      Node.from_dict stNode1.to_dict ∧
    (DAG.load [{ stNode1.to_dict with hash := "corrupted" }]
      ∅).findHashMismatch = none :=
  ⟨(load_recomputes_hashes [{ stNode1.to_dict with hash := "corrupted" }] ∅
      stNode1.to_dict "corrupted").1,
    (load_recomputes_hashes [{ stNode1.to_dict with hash := "corrupted" }] ∅
      stNode1.to_dict "corrupted").2.1⟩

/-- C9: validation constrains references only to resolve and to number at
most two — being a current tip is not required — and admission under these
conditions succeeds and preserves the tips-are-exactly-the-unreferenced
invariant. -/
theorem references_need_not_be_tips (d : DAG) (n : Node)
    (hreach : Reachable d)
    (hfresh : n.node_id ∉ d.nodeIds)
    (hrefs : ∀ r ∈ n.references, r ∈ d.nodeIds)
    (hlen : n.references.length ≤ 2)
    (hact : actionOk d n = true) :
    (d.add_node n).2 = none ∧
    (d.add_node n).1.tips = tipsSpec (d.add_node n).1 := by
  have hv : d.validate_node n = none :=
    (validate_none_iff d n).mpr ⟨hfresh, hrefs, hlen, hact⟩
  have hsucc := add_node_of_valid hv
  refine ⟨by rw [hsucc], ?_⟩
  have hstep : d.add_node n = ((d.add_node n).1, none) := by
    rw [hsucc]
  have hreach' : Reachable (d.add_node n).1 :=
    @Reachable.step d (d.add_node n).1 n hreach hstep
  exact (reachable_invariant hreach').1

/-- Witness for C9: a staking node referencing `n1`, an existing node that is
no longer a tip of `dag2`, is admitted, and the invariant holds after. -/
theorem references_need_not_be_tips_witness :
    ("n1" ∈ dag2.nodeIds ∧ "n1" ∉ dag2.tips ∧
      stNonTip.references = ["n1"]) ∧
    (dag2.add_node stNonTip).2 = none ∧
    (dag2.add_node stNonTip).1.tips = tipsSpec (dag2.add_node stNonTip).1 := by
  have h1 : Reachable dag1 :=
    @Reachable.step DAG.empty dag1 regNode1 Reachable.empty (by decide)
  have h2 : Reachable dag2 := @Reachable.step dag1 dag2 trNode1 h1 (by decide)
  refine ⟨⟨by decide, by decide, by decide⟩, ?_⟩
  exact references_need_not_be_tips dag2 stNonTip h2 (by decide) (by decide)
    (by decide) (by decide)

/-- Appending one staking node with a well-typed amount adds exactly that
amount to the summation loop's result. -/
theorem sumStakingLoop_append (l : List Node) (n : Node) (k : Int)
    (hn : stakingAmount n = some k) (t : Int) :
    sumStakingLoop t (l ++ [n]) = (sumStakingLoop t l).map (· + k) := by
  induction l generalizing t with
  | nil => simp [sumStakingLoop, hn]
  | cons a l ih =>
    rcases ha : stakingAmount a with _ | j <;> simp [sumStakingLoop, ha, ih]

/-- C10: the staking amount is never validated: a stake by the asset's
current owner is admitted for every integer amount — zero and negative
included — and the user's staking balance moves by exactly that amount, so
it can decrease or go negative. -/
theorem staking_amount_unvalidated (d : DAG) (hreach : Reachable d)
    (asset_id user_id : String) (amount : Int) (references : List String)
    (node_id signature : String) (timestamp : Int)
    (hchoose : ChooseRefs d references)
    (hfresh : node_id ∉ d.nodeIds)
    (e : OwnershipEntry)
    (hlast : (d.get_asset_ownership_history asset_id).getLast? = some e)
    (hown : e.user_id = PValue.str user_id)
    (v : Int)
    (hbal : d.get_user_staking_balance user_id = some v) :
    (stake_asset d asset_id user_id amount references node_id signature
      timestamp).2 = none ∧
    (stake_asset d asset_id user_id amount references node_id signature
        timestamp).1.get_user_staking_balance user_id =
      some (v + amount) := by
  obtain ⟨htips, -, -⟩ := reachable_invariant hreach
  obtain ⟨hnd, hsub, hlen⟩ := hchoose
  have hrefs : ∀ r ∈ references, r ∈ d.nodeIds := by
    intro r hr
    have : r ∈ tipsSpec d := htips ▸ hsub r hr
    obtain ⟨⟨p, hp, rfl⟩, -⟩ := mem_tipsSpec.mp this
    exact List.mem_map_of_mem Node.node_id hp
  set n : Node := Node.init asset_id "staking" user_id timestamp references
    signature node_id [("staking_amount", PValue.int amount)] with hn
  have hact : actionOk d n = true := by
    rw [actionOk]
    have h1 : ¬ n.action = "register" := by simp [hn, Node.init]
    have h2 : ¬ n.action = "transfer" := by simp [hn, Node.init]
    have h3 : n.action = "staking" := by simp [hn, Node.init]
    have h4 : n.asset_id = asset_id := by simp [hn, Node.init]
    have h5 : n.user_id = user_id := by simp [hn, Node.init]
    rw [if_neg h1, if_neg h2, if_pos h3, h4, hlast]
    simp [h5, hown]
  have hv : d.validate_node n = none :=
    (validate_none_iff d n).mpr ⟨hfresh, hrefs, hlen, hact⟩
  have hsucc := add_node_of_valid hv
  have hres : stake_asset d asset_id user_id amount references node_id
      signature timestamp = d.add_node n := rfl
  refine ⟨by rw [hres, hsucc], ?_⟩
  rw [hres, hsucc]
  show sumStakingLoop 0 ((d.nodes ++ [n]).filter _) = _
  rw [List.filter_append]
  have hpred : (fun m : Node =>
      m.action == "staking" && m.user_id == user_id) n = true := by
    simp [hn, Node.init]
  have hfil : [n].filter
      (fun m => m.action == "staking" && m.user_id == user_id) = [n] := by
    simp [List.filter_cons, hpred]
  rw [hfil]
  have hamt : stakingAmount n = some amount := by
    simp [hn, Node.init, stakingAmount, Payload.lookup]
  rw [sumStakingLoop_append _ _ _ hamt]
  rw [DAG.get_user_staking_balance] at hbal
  rw [hbal]
  rfl

/-- Witness for C10: staking `A1` by its owner `U1` with amount `-5` is
admitted and drives the balance negative. -/
theorem staking_amount_unvalidated_witness :
    ChooseRefs dag1 ["n1"] ∧
    (dag1.get_asset_ownership_history "A1").getLast? =
      some ⟨PValue.str "U1", 1, "n1", "register"⟩ ∧
    dag1.get_user_staking_balance "U1" = some 0 ∧
    (stake_asset dag1 "A1" "U1" (-5) ["n1"] "nS" "sigS" 2).2 = none ∧
    (stake_asset dag1 "A1" "U1" (-5) ["n1"] "nS" "sigS"
      2).1.get_user_staking_balance "U1" = some (-5) := by
  have h1 : Reachable dag1 :=
    @Reachable.step DAG.empty dag1 regNode1 Reachable.empty (by decide)
  have hmain := staking_amount_unvalidated dag1 h1 "A1" "U1" (-5) ["n1"]
    "nS" "sigS" 2 ⟨by decide, by decide, by decide⟩ (by decide)
    ⟨PValue.str "U1", 1, "n1", "register"⟩ (by decide) (by decide) 0
    (by decide)
  refine ⟨⟨by decide, by decide, by decide⟩, by decide, by decide,
    hmain.1, ?_⟩
  have h2 := hmain.2
  simpa using h2

end Blockchain
